import Mathlib

/-!
Verification development for the instruction-hub CLI.

The TypeScript sources are shallowly embedded as executable Lean functions.
JavaScript strings are modelled as Lean `String` values and every string
operation the sources use (trim, includes, split, join, endsWith, basename,
replace-first, the WHATWG URL constructor, the front-matter regular
expression) is implemented here on the underlying character list, by
structural recursion, so that every definition evaluates by kernel
reduction.

Scope of the URL model (`parseURL`): it covers URLs of the shape
scheme://authority/path as used by this tool.  It lowercases the scheme and
host, strips userinfo and port from the authority, requires a nonempty host
for the special network schemes, and rejects inputs the WHATWG constructor
rejects on that shape (empty or malformed scheme, missing authority
separator).  Percent-encoding, dot-segment normalization, IPv6 hosts, query
and fragment parts are outside the model; no claim below exercises them.
-/

/-- Character class of the JavaScript whitespace used by trim and by the
regular-expression class backslash-s (space, tab, LF, CR, VT, FF). -/
def isJsSpace (c : Char) : Bool :=
  c == ' ' || c == '\t' || c == '\n' || c == '\r' || c == '\x0b' || c == '\x0c'

/-- JavaScript String.prototype.trim. -/
def jsTrim (s : String) : String :=
  ⟨((s.data.dropWhile isJsSpace).reverse.dropWhile isJsSpace).reverse⟩

/-- Does the character list contain the (nonempty) pattern as a contiguous
sublist?  Models JavaScript String.prototype.includes. -/
def containsSubL (pat : List Char) : List Char → Bool
  | [] => pat.isEmpty
  | c :: t => pat.isPrefixOf (c :: t) || containsSubL pat t

/-- JavaScript String.prototype.includes. -/
def jsIncludes (s pat : String) : Bool :=
  containsSubL pat.data s.data

/-- Splitting on a nonempty separator, fuelled so the recursion is
structural; fuel equal to the list length always suffices because every
step consumes at least one character. -/
def splitLFuel (sep : List Char) : Nat → List Char → List (List Char)
  | 0, l => [l]
  | _ + 1, [] => [[]]
  | fuel + 1, c :: t =>
    if sep ≠ [] ∧ sep.isPrefixOf (c :: t) then
      [] :: splitLFuel sep fuel ((c :: t).drop sep.length)
    else
      match splitLFuel sep fuel t with
      | [] => [[c]]
      | h :: t2 => (c :: h) :: t2

/-- JavaScript String.prototype.split with a nonempty string separator. -/
def jsSplit (s sep : String) : List String :=
  (splitLFuel sep.data s.data.length s.data).map (fun l => ⟨l⟩)

/-- List intercalation used to model Array.prototype.join. -/
def intercalateL (sep : List Char) : List (List Char) → List Char
  | [] => []
  | [x] => x
  | x :: y :: t => x ++ sep ++ intercalateL sep (y :: t)

/-- JavaScript Array.prototype.join on strings. -/
def jsJoin (sep : String) (parts : List String) : String :=
  ⟨intercalateL sep.data (parts.map String.data)⟩

/-- JavaScript String.prototype.substring applied at index 1. -/
def jsDrop1 (s : String) : String := ⟨s.data.drop 1⟩

/-- Node path.basename for forward-slash paths without trailing slashes. -/
def jsBasename (p : String) : String :=
  (jsSplit p "/").getLastD ""

/-- JavaScript String.prototype.endsWith. -/
def jsEndsWith (s suffixStr : String) : Bool :=
  decide (suffixStr.data <:+ s.data)

/-- The effect of String.prototype.replace with a regular expression that is
a literal string anchored at the end (such as backslash-dot md dollar):
drop the suffix when present, otherwise return the string unchanged. -/
def stripSuffix (s suffixStr : String) : String :=
  if jsEndsWith s suffixStr then ⟨s.data.take (s.data.length - suffixStr.data.length)⟩ else s

/-- JavaScript String.prototype.replace with a plain-string pattern:
replace the first occurrence only. -/
def replaceFirstL (pat rep : List Char) : List Char → List Char
  | [] => if pat.isEmpty then rep else []
  | c :: t =>
    if pat.isPrefixOf (c :: t) then rep ++ (c :: t).drop pat.length
    else c :: replaceFirstL pat rep t

/-- JavaScript String.prototype.replace, first occurrence of a plain string. -/
def jsReplaceFirst (s pat rep : String) : String :=
  ⟨replaceFirstL pat.data rep.data s.data⟩

/-- Template interpolation of a possibly-undefined JavaScript string value:
undefined prints as the text undefined. -/
def jsOptStr : Option String → String
  | some s => s
  | none => "undefined"

/-! ## URL model -/

/-- The fields of a WHATWG URL object this tool reads. -/
structure JsUrl where
  protocol : String
  hostname : String
  pathname : String
deriving DecidableEq, Repr

/-- Split a character list at its first colon. -/
def splitAtFirstColon : List Char → Option (List Char × List Char)
  | [] => none
  | c :: t =>
    if c = ':' then some ([], t)
    else (splitAtFirstColon t).map (fun p => (c :: p.1, p.2))

/-- A syntactically valid URL scheme: a letter followed by letters, digits,
plus, minus or dot. -/
def schemeOkL : List Char → Bool
  | [] => false
  | c :: t => c.isAlpha && t.all (fun d => d.isAlphanum || d == '+' || d == '-' || d == '.')

/-- The special network schemes for which the WHATWG parser requires a
nonempty host. -/
def specialNetScheme (s : List Char) : Bool :=
  s == "http".data || s == "https".data || s == "ws".data || s == "wss".data || s == "ftp".data

/-- The hostname part of an authority: after the last at sign, before the
first colon, lowercased. -/
def hostOfAuthority (auth : List Char) : List Char :=
  (((auth.reverse.takeWhile (fun c => c != '@')).reverse).takeWhile (fun c => c != ':')).map Char.toLower

/-- Model of the WHATWG URL constructor (new URL) on scheme://authority/path
inputs; none models a thrown TypeError. -/
def parseURL (s : String) : Option JsUrl :=
  match splitAtFirstColon s.data with
  | none => none
  | some (scheme, rest) =>
    if schemeOkL scheme then
      match rest with
      | '/' :: '/' :: r =>
        let auth := r.takeWhile (fun c => c != '/')
        let path := r.dropWhile (fun c => c != '/')
        let host := hostOfAuthority auth
        if host.isEmpty && specialNetScheme (scheme.map Char.toLower) then none
        else
          some { protocol := ⟨scheme.map Char.toLower ++ [':']⟩,
                 hostname := ⟨host⟩,
                 pathname := ⟨if path.isEmpty then ['/'] else path⟩ }
      | _ => none
    else none

/-! ## Repository Locator (parseGitHubRepo, src/unnamed/part_000 lines 8-48) -/

/-- The normalized locator produced by parseGitHubRepo.  The owner field is
always a string (element 0 of the split); the repo and path fields may be
the JavaScript value undefined, modelled as none. -/
structure Locator where
  owner : String
  repo : Option String
  path : Option String
  baseUrl : String
deriving DecidableEq, Repr

def publicBase : String := "https://api.github.com"

/-- Removal of the tree-branch segment (lines 30-35 of the source): split on
the literal slash-tree-slash, keep part 0, and re-append part 1 with its
first slash-segment (the branch) dropped. -/
def treeClean (c1 : String) : String :=
  if jsIncludes c1 "/tree/" then
    let parts := jsSplit c1 "/tree/"
    let afterBranch := jsJoin "/" ((jsSplit (parts.getD 1 "") "/").drop 1)
    if afterBranch ≠ "" then parts.headD "" ++ "/" ++ afterBranch else parts.headD ""
  else c1

/-- Final field extraction (lines 37-47 of the source): split on slash,
element 0 is the owner, element 1 the repo, the rest joined is the path. -/
def locFromClean (c b : String) : Locator :=
  let parts := jsSplit c "/"
  { owner := parts.headD "",
    repo := parts.get? 1,
    path := if 2 < parts.length then some (jsJoin "/" (parts.drop 2)) else none,
    baseUrl := b }

/-- parseGitHubRepo.  none models an exception escaping the function (the
only possible one is the URL constructor throwing on a malformed URL). -/
def parseGitHubRepo (repo : String) : Option Locator :=
  let cleaned0 := jsTrim repo
  if jsIncludes cleaned0 "://" then
    match parseURL cleaned0 with
    | none => none
    | some u =>
      let b := if u.hostname ≠ "github.com"
               then u.protocol ++ "//" ++ u.hostname ++ "/api/v3"
               else publicBase
      some (locFromClean (treeClean (jsDrop1 u.pathname)) b)
  else
    some (locFromClean (treeClean cleaned0) publicBase)

/-- The repository reference string fetchMarkdownFiles passes to its
recursive call for a directory entry (src/unnamed/part_000 line 96). -/
def subdirRepoRef (loc : Locator) (itemPath : String) : String :=
  jsReplaceFirst loc.baseUrl "/api/v3" "" ++ "/" ++ loc.owner ++ "/" ++ jsOptStr loc.repo ++ "/" ++ itemPath

-- sanity examples
example : parseGitHubRepo "owner/repo" =
    some ⟨"owner", some "repo", none, "https://api.github.com"⟩ := by decide
example : parseGitHubRepo "https://github.com/owner/repo/tree/main/docs" =
    some ⟨"owner", some "repo", some "docs", "https://api.github.com"⟩ := by decide
example : parseGitHubRepo "https://ghe.company.com/owner/repo" =
    some ⟨"owner", some "repo", none, "https://ghe.company.com/api/v3"⟩ := by decide
example : parseGitHubRepo "://x" = none := by decide

/-! ## File-URL parser (parseGitHubFileUrl, src/unnamed/part_000 lines 149-193) -/

/-- The result object of parseGitHubFileUrl. -/
structure FileRef where
  repo : String
  filePath : String
  owner : String
  repoName : String
  branch : String
  baseUrl : String
deriving DecidableEq, Repr

/-- parseGitHubFileUrl: parse a blob URL; the surrounding try/catch turns
every failure, including a throwing URL constructor, into null (none). -/
def parseGitHubFileUrl (url : String) : Option FileRef :=
  match parseURL url with
  | none => none
  | some u =>
    let baseUrl := if u.hostname ≠ "github.com"
                   then u.protocol ++ "//" ++ u.hostname ++ "/api/v3"
                   else publicBase
    let pathParts := jsSplit (jsDrop1 u.pathname) "/"
    if pathParts.length < 5 ∨ pathParts.getD 2 "" ≠ "blob" then none
    else
      let owner := pathParts.headD ""
      let repoName := pathParts.getD 1 ""
      some { repo := owner ++ "/" ++ repoName,
             filePath := jsJoin "/" (pathParts.drop 4),
             owner := owner,
             repoName := repoName,
             branch := pathParts.getD 3 "",
             baseUrl := baseUrl }

/-! ## Front matter (ensureFrontMatter, src/src/interactive.ts lines 30-46) -/

/-- Does the list start with the close pattern of the front-matter regular
expression: LF, three dashes, whitespace run, LF?  The whitespace-then-LF
part holds exactly when the maximal whitespace run after the dashes
contains an LF, since LF itself is whitespace. -/
def closesAt : List Char → Bool
  | '\n' :: '-' :: '-' :: '-' :: rest => (rest.takeWhile isJsSpace).contains '\n'
  | _ => false

/-- Does any suffix of the list start with the close pattern? -/
def hasClose : List Char → Bool
  | [] => false
  | c :: t => closesAt (c :: t) || hasClose t

/-- Consume the whitespace-run-then-LF of the opening delimiter: return the
characters after the first LF, provided everything before it is
whitespace.  Taking the first LF is complete because a later LF in the run
only shrinks the remainder searched by hasClose. -/
def afterOpen : List Char → Option (List Char)
  | [] => none
  | c :: t => if c = '\n' then some t else if isJsSpace c then afterOpen t else none

/-- Match-existence semantics of the anchored front-matter detection
regular expression: caret, three dashes, whitespace run, LF, lazy
any-character run, LF, three dashes, whitespace run, LF. -/
def frontMatterTestL : List Char → Bool
  | '-' :: '-' :: '-' :: rest =>
    match afterOpen rest with
    | some body => hasClose body
    | none => false
  | _ => false

/-- The default front-matter block injected by ensureFrontMatter. -/
def defaultFrontMatter : String := "---\napplyTo: \"**\"\n---\n\n"

/-- ensureFrontMatter: return the content unchanged when the detection
regular expression matches, otherwise prepend the default block. -/
def ensureFrontMatter (content : String) : String :=
  if frontMatterTestL content.data then content else defaultFrontMatter ++ content

/-! ## Installation Tracker (src/src/index.ts lines 148-160) -/

/-- A tracked entry of the installation manifest. -/
structure ManagedInstruction where
  filename : String
  sourceRepo : String
  sourcePath : String
  installedAt : String
deriving DecidableEq, Repr

/-- addManagedInstruction on the instructions sequence: drop any entry with
the same filename, then push the new entry. -/
def addManagedInstruction (instruction : ManagedInstruction)
    (l : List ManagedInstruction) : List ManagedInstruction :=
  l.filter (fun i => i.filename != instruction.filename) ++ [instruction]

/-- removeManagedInstruction on the instructions sequence. -/
def removeManagedInstruction (filename : String)
    (l : List ManagedInstruction) : List ManagedInstruction :=
  l.filter (fun i => i.filename != filename)

/-- The manifest invariant: filenames are pairwise distinct. -/
def distinctFilenames (l : List ManagedInstruction) : Prop :=
  l.Pairwise (fun a b => a.filename ≠ b.filename)

/-! ## Orchestrator state

The installation directory and the manifest, the two pieces of local state
the flows mutate.  The disk is an association list from installed filename
to file content (all files live in the one fixed directory, so the
filename determines the path). -/

structure HubState where
  disk : List (String × String)
  manifest : List ManagedInstruction
deriving DecidableEq, Repr

/-- Content of an installed file, none when the file does not exist. -/
def diskLookup (d : List (String × String)) (f : String) : Option String :=
  (d.find? (fun p => p.1 == f)).map (fun p => p.2)

/-- fs.existsSync on the installation directory. -/
def diskHas (d : List (String × String)) (f : String) : Bool :=
  (diskLookup d f).isSome

/-- fs.writeFileSync: create or overwrite. -/
def diskWrite (d : List (String × String)) (f c : String) : List (String × String) :=
  d.filter (fun p => p.1 != f) ++ [(f, c)]

/-- fs.unlinkSync. -/
def diskErase (d : List (String × String)) (f : String) : List (String × String) :=
  d.filter (fun p => p.1 != f)

/-- Derivation of the installed filename from the source base name
(src/src/interactive.ts lines 126-130 and 354-358, identical in both
flows): keep a name already ending in the managed suffix, otherwise strip
a trailing .md and append the managed suffix. -/
def deriveFilename (filename : String) : String :=
  if jsEndsWith filename ".instructions.md" then filename
  else stripSuffix filename ".md" ++ ".instructions.md"

/-- Common tail of both install flows: write the front-matter-normalized
content and upsert the tracker entry. -/
def writeAndTrack (s : HubState) (fname sourceRepo sourcePath content now : String) : HubState :=
  { disk := diskWrite s.disk fname (ensureFrontMatter content),
    manifest := addManagedInstruction
      { filename := fname, sourceRepo := sourceRepo,
        sourcePath := sourcePath, installedAt := now } s.manifest }

/-! ## Install flows -/

/-- One iteration of the per-file loop of interactiveInstall
(src/src/interactive.ts lines 117-176), given the downloaded content.
none models an exception caught by the per-file handler with no state
change recorded (the only throwing step after download is the URL
constructor inside parseGitHubRepo).  Note the collision branch (source
lines 141-143) strips and appends the singular suffix .instruction.md
while the canonical suffix is the plural .instructions.md. -/
def interactiveInstallStep (s : HubState) (selectedRepo selPath content now : String) :
    Option HubState :=
  let filename := deriveFilename (jsBasename selPath)
  if diskHas s.disk filename then
    match s.manifest.find? (fun inst => inst.filename == filename) with
    | some existingInstruction =>
      if existingInstruction.sourceRepo ≠ selectedRepo then
        let nameWithoutExt := stripSuffix filename ".instruction.md"
        match parseGitHubRepo selectedRepo with
        | none => none
        | some loc =>
          let differentiated := nameWithoutExt ++ "." ++ jsOptStr loc.repo ++ ".instruction.md"
          some (writeAndTrack s differentiated selectedRepo selPath content now)
      else some (writeAndTrack s filename selectedRepo selPath content now)
    | none => some (writeAndTrack s filename selectedRepo selPath content now)
  else some (writeAndTrack s filename selectedRepo selPath content now)

/-- The direct-URL install flow installFromUrl (src/src/interactive.ts
lines 321-404), given the content fetchSingleFile downloads for the URL;
the returned filename of fetchSingleFile is the base name of the file
path.  none models the early return on an unparseable URL or a caught
error.  Its collision branch (source lines 369-371) strips and appends the
plural suffix .instructions.md.  The config side effect is omitted: no
claim reads the config. -/
def installFromUrlStep (s : HubState) (url content now : String) : Option HubState :=
  match parseGitHubFileUrl url with
  | none => none
  | some parsed =>
    let instructionFilename := deriveFilename (jsBasename parsed.filePath)
    if diskHas s.disk instructionFilename then
      match s.manifest.find? (fun inst => inst.filename == instructionFilename) with
      | some existingInstruction =>
        if existingInstruction.sourceRepo ≠ parsed.repo then
          let nameWithoutExt := stripSuffix instructionFilename ".instructions.md"
          match parseGitHubRepo parsed.repo with
          | none => none
          | some loc =>
            let differentiated := nameWithoutExt ++ "." ++ jsOptStr loc.repo ++ ".instructions.md"
            some (writeAndTrack s differentiated parsed.repo parsed.filePath content now)
        else some (writeAndTrack s instructionFilename parsed.repo parsed.filePath content now)
      | none => some (writeAndTrack s instructionFilename parsed.repo parsed.filePath content now)
    else some (writeAndTrack s instructionFilename parsed.repo parsed.filePath content now)

/-! ## Uninstall flow (interactiveUninstall, src/src/interactive.ts lines 220-232) -/

/-- One iteration of the uninstall loop: delete the file only if present,
then unconditionally remove the tracker entry. -/
def uninstallStep (s : HubState) (inst : ManagedInstruction) : HubState :=
  { disk := if diskHas s.disk inst.filename then diskErase s.disk inst.filename else s.disk,
    manifest := removeManagedInstruction inst.filename s.manifest }

/-- The uninstall loop over the selected entries. -/
def interactiveUninstall (s : HubState) (selected : List ManagedInstruction) : HubState :=
  List.foldl uninstallStep s selected

/-! ## Update flow (interactiveUpdate, src/src/interactive.ts lines 235-314) -/

/-- One iteration of the update loop.  The upstream function models the
combination of fetchMarkdownFiles plus the path lookup plus downloadFile
for a given source repository and source path: none when the path is
missing from the listing or any network step fails (both leave the state
unchanged: the loop catches and continues), some content otherwise.
Otherwise: normalize front matter, compare byte-for-byte with the
installed file (missing file reads as the empty string), skip when equal,
else overwrite the file and replace the tracker entry (remove then add)
with a fresh timestamp. -/
def updateStep (upstream : String → String → Option String) (now : String)
    (s : HubState) (inst : ManagedInstruction) : HubState :=
  match upstream inst.sourceRepo inst.sourcePath with
  | none => s
  | some content =>
    let fileContent := ensureFrontMatter content
    let existingContent := (diskLookup s.disk inst.filename).getD ""
    if fileContent = existingContent then s
    else
      { disk := diskWrite s.disk inst.filename fileContent,
        manifest := addManagedInstruction { inst with installedAt := now }
          (removeManagedInstruction inst.filename s.manifest) }

/-- interactiveUpdate: iterate the update step over a snapshot of the
manifest taken at entry. -/
def interactiveUpdate (upstream : String → String → Option String) (now : String)
    (s : HubState) : HubState :=
  List.foldl (updateStep upstream now) s s.manifest

-- sanity examples
example : ensureFrontMatter "hello" = "---\napplyTo: \"**\"\n---\n\nhello" := by decide
example : ensureFrontMatter "---\nx: 1\n---\nbody" = "---\nx: 1\n---\nbody" := by decide
example : deriveFilename "guide.md" = "guide.instructions.md" := by decide
example : deriveFilename "guide.instructions.md" = "guide.instructions.md" := by decide
example : parseGitHubFileUrl "https://github.com/o/r/blob/main/docs/f.md" =
    some ⟨"o/r", "docs/f.md", "o", "r", "main", "https://api.github.com"⟩ := by decide
example : parseGitHubFileUrl "https://github.com/o/r/main/docs/f.md" = none := by decide
example : parseGitHubFileUrl "not a url" = none := by decide

/-! ## Shared helper lemmas -/

theorem jsEndsWith_append_self (b m : String) : jsEndsWith (b ++ m) m = true := by
  unfold jsEndsWith
  rw [String.data_append]
  exact decide_eq_true (List.suffix_append b.data m.data)

theorem stripSuffix_append (b m : String) : stripSuffix (b ++ m) m = b := by
  unfold stripSuffix
  rw [jsEndsWith_append_self]
  simp only [if_pos]
  rw [String.data_append]
  have hlen : (b.data ++ m.data).length - m.data.length = b.data.length := by
    simp [List.length_append]
  rw [hlen, List.take_left]

/-! ## Claim C1 -/

/-- C1: filename-collision disambiguation.  The claim states that in both
install flows a second install of guide.md from a different source
repository is written as guide.repoB.instructions.md.  The direct-URL flow
does exactly that, but the interactive flow strips and appends the
singular suffix .instruction.md (source lines 141-143), so it writes
guide.instructions.md.repoB.instruction.md instead: the claimed name is
never created there.  The earlier file is untouched and the tracker gains
a second entry in both flows.  This theorem evaluates both flows on the
scenario. -/
theorem collisionRename_interactive_vs_url_eval :
    interactiveInstallStep ⟨[], []⟩ "ownerA/repoA" "guide.md" "A" "t1" =
      some ⟨[("guide.instructions.md", defaultFrontMatter ++ "A")],
            [⟨"guide.instructions.md", "ownerA/repoA", "guide.md", "t1"⟩]⟩ ∧
    interactiveInstallStep
        ⟨[("guide.instructions.md", defaultFrontMatter ++ "A")],
         [⟨"guide.instructions.md", "ownerA/repoA", "guide.md", "t1"⟩]⟩
        "ownerB/repoB" "guide.md" "B" "t2" =
      some ⟨[("guide.instructions.md", defaultFrontMatter ++ "A"),
             ("guide.instructions.md.repoB.instruction.md", defaultFrontMatter ++ "B")],
            [⟨"guide.instructions.md", "ownerA/repoA", "guide.md", "t1"⟩,
             ⟨"guide.instructions.md.repoB.instruction.md", "ownerB/repoB", "guide.md", "t2"⟩]⟩ ∧
    ("guide.instructions.md.repoB.instruction.md" ≠ "guide.repoB.instructions.md") ∧
    installFromUrlStep ⟨[], []⟩ "https://github.com/ownerA/repoA/blob/main/guide.md" "A" "t1" =
      some ⟨[("guide.instructions.md", defaultFrontMatter ++ "A")],
            [⟨"guide.instructions.md", "ownerA/repoA", "guide.md", "t1"⟩]⟩ ∧
    installFromUrlStep
        ⟨[("guide.instructions.md", defaultFrontMatter ++ "A")],
         [⟨"guide.instructions.md", "ownerA/repoA", "guide.md", "t1"⟩]⟩
        "https://github.com/ownerB/repoB/blob/main/guide.md" "B" "t2" =
      some ⟨[("guide.instructions.md", defaultFrontMatter ++ "A"),
             ("guide.repoB.instructions.md", defaultFrontMatter ++ "B")],
            [⟨"guide.instructions.md", "ownerA/repoA", "guide.md", "t1"⟩,
             ⟨"guide.repoB.instructions.md", "ownerB/repoB", "guide.md", "t2"⟩]⟩ := by
  decide

/-! ## Claim C2 -/

/-- C2: locator preservation of the recursive listing call.  The claim
states the recursion reference re-parses to the same owner, repo and API
base for both the public and the Enterprise base.  Owner, repo and the
extended path are preserved in both cases, and the Enterprise base is
preserved, but for the public base the recursion reference
https://api.github.com/owner/repo/docs re-parses with the Enterprise-style
base https://api.github.com/api/v3, not the parent base
https://api.github.com: stripping /api/v3 from the public base leaves the
host api.github.com, which the parser does not recognize as github.com.
This theorem evaluates the recursion-reference construction of
fetchMarkdownFiles at that failing input and at an Enterprise locator. -/
theorem subdirRecursion_locator_eval :
    parseGitHubRepo "owner/repo" = some ⟨"owner", some "repo", none, publicBase⟩ ∧
    subdirRepoRef ⟨"owner", some "repo", none, publicBase⟩ "docs" =
      "https://api.github.com/owner/repo/docs" ∧
    parseGitHubRepo "https://api.github.com/owner/repo/docs" =
      some ⟨"owner", some "repo", some "docs", "https://api.github.com/api/v3"⟩ ∧
    (parseGitHubRepo (subdirRepoRef ⟨"owner", some "repo", none, publicBase⟩ "docs")).map
        Locator.baseUrl ≠ some publicBase ∧
    subdirRepoRef ⟨"owner", some "repo", none, "https://ghe.company.com/api/v3"⟩ "a/b" =
      "https://ghe.company.com/owner/repo/a/b" ∧
    parseGitHubRepo "https://ghe.company.com/owner/repo/a/b" =
      some ⟨"owner", some "repo", some "a/b", "https://ghe.company.com/api/v3"⟩ := by
  decide

/-! ## Claim C9 -/

/-- C9 counterexample: parseGitHubRepo is not total.  On the input
consisting of a scheme separator with no scheme, the input contains the
separator, so the URL constructor runs, and it throws on the malformed
URL; nothing catches the exception inside the parser. -/
theorem parseGitHubRepo_raises_on_malformed_url :
    parseGitHubRepo "://x" = none := by decide

/-- C9 amended: for every input string whose trimmed form does not contain
a scheme separator, parseGitHubRepo returns a locator without raising;
only inputs that contain the separator but are rejected by the URL
constructor raise. -/
theorem parseGitHubRepo_total_without_scheme (s : String)
    (h : jsIncludes (jsTrim s) "://" = false) :
    (parseGitHubRepo s).isSome = true := by
  unfold parseGitHubRepo
  simp [h]

/-- Witness for the amended C9 theorem at a shorthand reference. -/
theorem parseGitHubRepo_total_without_scheme_witness :
    (parseGitHubRepo "owner/repo/some path").isSome = true :=
  parseGitHubRepo_total_without_scheme "owner/repo/some path" (by decide)

/-! ## Claim C5 -/

/-- C5: managed-suffix canonicalization.  A source base name already
ending in the managed suffix is installed unchanged; one ending only in
.md has that extension replaced by the managed suffix.  Both install flows
compute the filename with this same derivation (source lines 126-130 and
354-358). -/
theorem deriveFilename_canonicalization (s b : String) :
    (jsEndsWith s ".instructions.md" = true → deriveFilename s = s) ∧
    (jsEndsWith s ".instructions.md" = false → s = b ++ ".md" →
      deriveFilename s = b ++ ".instructions.md") := by
  constructor
  · intro h
    unfold deriveFilename
    rw [h]
    simp
  · intro h he
    subst he
    unfold deriveFilename
    rw [h]
    simp only [Bool.false_eq_true, if_false]
    rw [stripSuffix_append]

/-- Witness for C5 at a suffixed and a plain markdown name. -/
theorem deriveFilename_canonicalization_witness :
    deriveFilename "a.instructions.md" = "a.instructions.md" ∧
    deriveFilename "guide.md" = "guide" ++ ".instructions.md" :=
  ⟨(deriveFilename_canonicalization "a.instructions.md" "").1 (by decide),
   (deriveFilename_canonicalization "guide.md" "guide").2 (by decide) (by decide)⟩

/-! ## Claim C6 -/

theorem length_filter_ne_of_mem (l : List ManagedInstruction) (f : String)
    (h : distinctFilenames l) (he : ∃ e ∈ l, e.filename = f) :
    (l.filter (fun i => i.filename != f)).length + 1 = l.length := by
  induction l with
  | nil => simp at he
  | cons a t ih =>
    rw [distinctFilenames, List.pairwise_cons] at h
    obtain ⟨ha, ht⟩ := h
    obtain ⟨e, hel, hef⟩ := he
    simp only [List.mem_cons] at hel
    by_cases haf : a.filename = f
    · have hfilter : t.filter (fun i => i.filename != f) = t := by
        apply List.filter_eq_self.mpr
        intro b hb
        simp only [bne_iff_ne, ne_eq]
        intro hbf
        exact ha b hb (by rw [haf, hbf])
      simp [haf, hfilter]
    · have het : e ∈ t := by
        rcases hel with h1 | h2
        · exact absurd (h1 ▸ hef) haf
        · exact h2
      have hrec := ih ht ⟨e, het, hef⟩
      simp only [List.filter_cons]
      rw [if_pos (by simp [bne_iff_ne, haf])]
      simp only [List.length_cons]
      omega

/-- C6: filename is a unique key of the manifest.  Adding preserves
pairwise-distinct filenames, removing preserves them, an add with an
existing filename leaves exactly the new entry under that filename
(last-write-wins, no duplicate, no error), and such an add keeps the
manifest length unchanged. -/
theorem tracker_filename_unique_key (l : List ManagedInstruction)
    (m : ManagedInstruction) (f : String) (h : distinctFilenames l) :
    distinctFilenames (addManagedInstruction m l) ∧
    distinctFilenames (removeManagedInstruction f l) ∧
    (addManagedInstruction m l).filter (fun i => i.filename == m.filename) = [m] ∧
    ((∃ e ∈ l, e.filename = m.filename) → (addManagedInstruction m l).length = l.length) := by
  refine ⟨?_, ?_, ?_, ?_⟩
  · unfold addManagedInstruction distinctFilenames
    rw [List.pairwise_append]
    refine ⟨List.Pairwise.filter _ h, by simp, ?_⟩
    intro a hafil b hb
    simp only [List.mem_singleton] at hb
    subst hb
    have := (List.mem_filter.mp hafil).2
    simpa [bne_iff_ne] using this
  · exact List.Pairwise.filter _ h
  · unfold addManagedInstruction
    rw [List.filter_append]
    have h1 : (l.filter (fun i => i.filename != m.filename)).filter
        (fun i => i.filename == m.filename) = [] := by
      apply List.filter_eq_nil_iff.mpr
      intro a ha
      have := (List.mem_filter.mp ha).2
      simpa [bne_iff_ne] using this
    rw [h1]
    simp
  · intro he
    unfold addManagedInstruction
    rw [List.length_append]
    simpa using length_filter_ne_of_mem l m.filename h he

/-- Witness for C6: replacing the entry for f1 keeps distinctness and size. -/
theorem tracker_filename_unique_key_witness :
    distinctFilenames (addManagedInstruction ⟨"f1", "rB", "p", "t2"⟩
      [⟨"f1", "rA", "p", "t1"⟩, ⟨"f2", "rA", "q", "t1"⟩]) ∧
    (addManagedInstruction ⟨"f1", "rB", "p", "t2"⟩
      [⟨"f1", "rA", "p", "t1"⟩, ⟨"f2", "rA", "q", "t1"⟩]).length = 2 :=
  ⟨(tracker_filename_unique_key [⟨"f1", "rA", "p", "t1"⟩, ⟨"f2", "rA", "q", "t1"⟩]
      ⟨"f1", "rB", "p", "t2"⟩ "x" (by unfold distinctFilenames; decide)).1,
   (tracker_filename_unique_key [⟨"f1", "rA", "p", "t1"⟩, ⟨"f2", "rA", "q", "t1"⟩]
      ⟨"f1", "rB", "p", "t2"⟩ "x" (by unfold distinctFilenames; decide)).2.2.2
      ⟨⟨"f1", "rA", "p", "t1"⟩, by simp, rfl⟩⟩

/-! ## Claim C7 -/

theorem interactiveUninstall_manifest (selected : List ManagedInstruction) (s : HubState) :
    (interactiveUninstall s selected).manifest =
      s.manifest.filter (fun e => selected.all (fun i => e.filename != i.filename)) := by
  induction selected generalizing s with
  | nil => simp [interactiveUninstall]
  | cons i rest ih =>
    show (List.foldl uninstallStep (uninstallStep s i) rest).manifest = _
    rw [show List.foldl uninstallStep (uninstallStep s i) rest =
          interactiveUninstall (uninstallStep s i) rest from rfl]
    rw [ih]
    show ((removeManagedInstruction i.filename s.manifest).filter _) = _
    unfold removeManagedInstruction
    rw [List.filter_filter]
    apply List.filter_congr
    intro e _
    simp [List.all_cons, Bool.and_comm]

/-- C7: the uninstall flow removes the tracker entry of every selected
instruction even when the file is already absent from disk: after the
flow no entry with a selected filename remains in the manifest, and for an
entry whose file is missing the single uninstall iteration leaves the disk
untouched while still filtering the manifest. -/
theorem uninstall_removes_tracking_unconditionally (s : HubState)
    (selected : List ManagedInstruction) (inst : ManagedInstruction)
    (hsel : inst ∈ selected) (habsent : diskLookup s.disk inst.filename = none) :
    (∀ e ∈ (interactiveUninstall s selected).manifest, e.filename ≠ inst.filename) ∧
    (uninstallStep s inst).disk = s.disk ∧
    (uninstallStep s inst).manifest = removeManagedInstruction inst.filename s.manifest := by
  refine ⟨?_, ?_, rfl⟩
  · intro e he
    rw [interactiveUninstall_manifest] at he
    have hall := (List.mem_filter.mp he).2
    have := List.all_eq_true.mp hall inst hsel
    simpa [bne_iff_ne] using this
  · show (if diskHas s.disk inst.filename then diskErase s.disk inst.filename else s.disk) = s.disk
    unfold diskHas
    rw [habsent]
    simp

/-- Witness for C7: uninstalling an entry whose file was deleted manually. -/
theorem uninstall_removes_tracking_unconditionally_witness :
    (uninstallStep ⟨[], [⟨"gone.instructions.md", "o/r", "gone.md", "t1"⟩]⟩
        ⟨"gone.instructions.md", "o/r", "gone.md", "t1"⟩).disk = [] ∧
    (uninstallStep ⟨[], [⟨"gone.instructions.md", "o/r", "gone.md", "t1"⟩]⟩
        ⟨"gone.instructions.md", "o/r", "gone.md", "t1"⟩).manifest =
      removeManagedInstruction "gone.instructions.md"
        [⟨"gone.instructions.md", "o/r", "gone.md", "t1"⟩] :=
  ⟨(uninstall_removes_tracking_unconditionally
      ⟨[], [⟨"gone.instructions.md", "o/r", "gone.md", "t1"⟩]⟩
      [⟨"gone.instructions.md", "o/r", "gone.md", "t1"⟩]
      ⟨"gone.instructions.md", "o/r", "gone.md", "t1"⟩ (by simp) (by decide)).2.1,
   (uninstall_removes_tracking_unconditionally
      ⟨[], [⟨"gone.instructions.md", "o/r", "gone.md", "t1"⟩]⟩
      [⟨"gone.instructions.md", "o/r", "gone.md", "t1"⟩]
      ⟨"gone.instructions.md", "o/r", "gone.md", "t1"⟩ (by simp) (by decide)).2.2⟩

/-! ## Claim C8 -/

/-- C8: the file-URL parser returns null, never an error.  Every input that
the URL constructor rejects, and every parsed URL without at least five
path segments whose third segment is blob, yields none; on the accepted
shape the result carries owner = segment 1, repoName = segment 2, branch =
segment 4, filePath = the joined remaining segments, and repo joined from
owner and repoName (segments counted from 1 as in the claim; list indices
from 0). -/
theorem parseGitHubFileUrl_null_or_fields (s : String) :
    (parseURL s = none → parseGitHubFileUrl s = none) ∧
    ∀ u, parseURL s = some u →
      (((jsSplit (jsDrop1 u.pathname) "/").length < 5 ∨
          (jsSplit (jsDrop1 u.pathname) "/").getD 2 "" ≠ "blob") →
        parseGitHubFileUrl s = none) ∧
      (5 ≤ (jsSplit (jsDrop1 u.pathname) "/").length →
        (jsSplit (jsDrop1 u.pathname) "/").getD 2 "" = "blob" →
        parseGitHubFileUrl s = some
          { repo := (jsSplit (jsDrop1 u.pathname) "/").headD "" ++ "/" ++
                    (jsSplit (jsDrop1 u.pathname) "/").getD 1 "",
            filePath := jsJoin "/" ((jsSplit (jsDrop1 u.pathname) "/").drop 4),
            owner := (jsSplit (jsDrop1 u.pathname) "/").headD "",
            repoName := (jsSplit (jsDrop1 u.pathname) "/").getD 1 "",
            branch := (jsSplit (jsDrop1 u.pathname) "/").getD 3 "",
            baseUrl := if u.hostname ≠ "github.com"
                       then u.protocol ++ "//" ++ u.hostname ++ "/api/v3"
                       else publicBase }) := by
  constructor
  · intro h
    unfold parseGitHubFileUrl
    rw [h]
  · intro u hu
    constructor
    · intro hbad
      simp only [parseGitHubFileUrl, hu]
      rw [if_pos hbad]
    · intro h5 hblob
      simp only [parseGitHubFileUrl, hu]
      rw [if_neg (by rw [not_or]; exact ⟨not_lt.mpr h5, not_not.mpr hblob⟩)]

/-- Witness for C8 at an accepted blob URL and a rejected tree URL. -/
theorem parseGitHubFileUrl_null_or_fields_witness :
    parseGitHubFileUrl "https://github.com/o/r/blob/main/docs/f.md" =
      some ⟨"o/r", "docs/f.md", "o", "r", "main", publicBase⟩ ∧
    parseGitHubFileUrl "https://github.com/o/r/tree/main/docs/f.md" = none :=
  ⟨((parseGitHubFileUrl_null_or_fields "https://github.com/o/r/blob/main/docs/f.md").2
      ⟨"https:", "github.com", "/o/r/blob/main/docs/f.md"⟩ (by decide)).2
      (by decide) (by decide),
   ((parseGitHubFileUrl_null_or_fields "https://github.com/o/r/tree/main/docs/f.md").2
      ⟨"https:", "github.com", "/o/r/tree/main/docs/f.md"⟩ (by decide)).1
      (by decide)⟩

/-! ## Claim C10 -/

theorem hasClose_append (a u : List Char) (h : hasClose u = true) :
    hasClose (a ++ u) = true := by
  induction a with
  | nil => simpa using h
  | cons c t ih =>
    show hasClose (c :: (t ++ u)) = true
    unfold hasClose
    rw [ih]
    simp

theorem hasClose_close_head (t : List Char) :
    hasClose ('\n' :: '-' :: '-' :: '-' :: '\n' :: '\n' :: t) = true := rfl

theorem fmTest_open_then_close (A t : List Char) :
    frontMatterTestL ('-' :: '-' :: '-' :: '\n' ::
      (A ++ ('\n' :: '-' :: '-' :: '-' :: '\n' :: '\n' :: t))) = true := by
  have h1 : frontMatterTestL ('-' :: '-' :: '-' :: '\n' ::
      (A ++ ('\n' :: '-' :: '-' :: '-' :: '\n' :: '\n' :: t))) =
      hasClose (A ++ ('\n' :: '-' :: '-' :: '-' :: '\n' :: '\n' :: t)) := rfl
  rw [h1]
  exact hasClose_append A _ (hasClose_close_head t)

theorem frontMatterTestL_default_prepend (t : List Char) :
    frontMatterTestL (defaultFrontMatter.data ++ t) = true := by
  have hd : defaultFrontMatter.data ++ t =
      '-' :: '-' :: '-' :: '\n' ::
        ("applyTo: \"**\"".data ++ ('\n' :: '-' :: '-' :: '-' :: '\n' :: '\n' :: t)) := rfl
  rw [hd]
  exact fmTest_open_then_close ("applyTo: \"**\"".data) t

/-- C10: ensureFrontMatter is total on its goal and idempotent.  Its output
always matches the anchored detection regular expression, applying it
twice equals applying it once, and content that already matches is
returned unchanged. -/
theorem ensureFrontMatter_idempotent_total (s : String) :
    frontMatterTestL (ensureFrontMatter s).data = true ∧
    ensureFrontMatter (ensureFrontMatter s) = ensureFrontMatter s ∧
    (frontMatterTestL s.data = true → ensureFrontMatter s = s) := by
  have h1 : frontMatterTestL (ensureFrontMatter s).data = true := by
    unfold ensureFrontMatter
    by_cases h : frontMatterTestL s.data = true
    · rw [if_pos h]
      exact h
    · rw [if_neg h, String.data_append]
      exact frontMatterTestL_default_prepend s.data
  refine ⟨h1, ?_, ?_⟩
  · show (if frontMatterTestL (ensureFrontMatter s).data = true then ensureFrontMatter s
          else defaultFrontMatter ++ ensureFrontMatter s) = ensureFrontMatter s
    rw [if_pos h1]
  · intro h
    show (if frontMatterTestL s.data = true then s else defaultFrontMatter ++ s) = s
    rw [if_pos h]

/-- Witness for C10 at content with and without front matter. -/
theorem ensureFrontMatter_idempotent_total_witness :
    ensureFrontMatter "---\ntitle: x\n---\nbody" = "---\ntitle: x\n---\nbody" ∧
    ensureFrontMatter (ensureFrontMatter "plain") = ensureFrontMatter "plain" :=
  ⟨(ensureFrontMatter_idempotent_total "---\ntitle: x\n---\nbody").2.2 (by decide),
   (ensureFrontMatter_idempotent_total "plain").2.1⟩

/-! ## Claim C4 -/

theorem find?_filter_bne (l : List (String × String)) (g f : String) (h : g ≠ f) :
    (l.filter (fun p => p.1 != f)).find? (fun p => p.1 == g) =
      l.find? (fun p => p.1 == g) := by
  induction l with
  | nil => rfl
  | cons a t ih =>
    rw [List.filter_cons]
    by_cases hag : a.1 = g
    · have haf : (a.1 != f) = true := by simp [bne_iff_ne, hag, h]
      rw [if_pos haf]
      simp [List.find?_cons, hag]
    · by_cases haf : (a.1 != f) = true
      · rw [if_pos haf]
        simpa [List.find?_cons, hag] using ih
      · rw [if_neg haf]
        simpa [List.find?_cons, hag] using ih

theorem diskLookup_write_self (d : List (String × String)) (f c : String) :
    diskLookup (diskWrite d f c) f = some c := by
  unfold diskLookup diskWrite
  rw [List.find?_append]
  have h1 : (d.filter (fun p => p.1 != f)).find? (fun p => p.1 == f) = none := by
    apply List.find?_eq_none.mpr
    intro x hx
    have hx2 := (List.mem_filter.mp hx).2
    simp only [bne_iff_ne, ne_eq] at hx2
    simp [hx2]
  rw [h1]
  simp [List.find?]

theorem diskLookup_write_other (d : List (String × String)) (f c g : String) (h : g ≠ f) :
    diskLookup (diskWrite d f c) g = diskLookup d g := by
  unfold diskLookup diskWrite
  rw [List.find?_append, find?_filter_bne d g f h]
  rcases hfd : d.find? (fun p => p.1 == g) with _ | x
  · have hfg : (f == g) = false := by simp [Ne.symm h]
    simp [hfd, List.find?, hfg]
  · simp [hfd]

/-- An entry is up to date: whatever content its source currently serves,
the front-matter-normalized form equals the installed file. -/
def upToDate (upstream : String → String → Option String)
    (d : List (String × String)) (inst : ManagedInstruction) : Prop :=
  ∀ c, upstream inst.sourceRepo inst.sourcePath = some c →
    ensureFrontMatter c = (diskLookup d inst.filename).getD ""

theorem updateStep_none (up : String → String → Option String) (now : String)
    (t : HubState) (i : ManagedInstruction)
    (hc : up i.sourceRepo i.sourcePath = none) :
    updateStep up now t i = t := by
  unfold updateStep
  rw [hc]

theorem updateStep_some (up : String → String → Option String) (now : String)
    (t : HubState) (i : ManagedInstruction) (c : String)
    (hc : up i.sourceRepo i.sourcePath = some c) :
    updateStep up now t i =
      if ensureFrontMatter c = (diskLookup t.disk i.filename).getD "" then t
      else ⟨diskWrite t.disk i.filename (ensureFrontMatter c),
            addManagedInstruction { i with installedAt := now }
              (removeManagedInstruction i.filename t.manifest)⟩ := by
  unfold updateStep
  rw [hc]

theorem updateStep_of_upToDate (up : String → String → Option String) (now : String)
    (s : HubState) (inst : ManagedInstruction) (h : upToDate up s.disk inst) :
    updateStep up now s inst = s := by
  cases hc : up inst.sourceRepo inst.sourcePath with
  | none => exact updateStep_none up now s inst hc
  | some c =>
    rw [updateStep_some up now s inst c hc, if_pos (h c hc)]

theorem updateStep_cases (up : String → String → Option String) (now : String)
    (t : HubState) (i : ManagedInstruction) :
    (updateStep up now t i = t ∧ upToDate up t.disk i) ∨
    (∃ c, up i.sourceRepo i.sourcePath = some c ∧
      updateStep up now t i =
        ⟨diskWrite t.disk i.filename (ensureFrontMatter c),
         addManagedInstruction { i with installedAt := now }
           (removeManagedInstruction i.filename t.manifest)⟩) := by
  cases hc : up i.sourceRepo i.sourcePath with
  | none =>
    left
    refine ⟨updateStep_none up now t i hc, ?_⟩
    intro c h
    rw [hc] at h
    exact absurd h (by simp)
  | some c =>
    by_cases heq : ensureFrontMatter c = (diskLookup t.disk i.filename).getD ""
    · left
      refine ⟨by rw [updateStep_some up now t i c hc, if_pos heq], ?_⟩
      intro c2 h2
      rw [hc] at h2
      obtain rfl : c = c2 := by injection h2
      exact heq
    · right
      exact ⟨c, rfl, by rw [updateStep_some up now t i c hc, if_neg heq]⟩

theorem pairwise_filename_unique (l : List ManagedInstruction) (h : distinctFilenames l) :
    ∀ a ∈ l, ∀ b ∈ l, b.filename = a.filename → b = a := by
  induction l with
  | nil => simp
  | cons c t ih =>
    rw [distinctFilenames, List.pairwise_cons] at h
    obtain ⟨hc, ht⟩ := h
    intro a ha b hb hba
    simp only [List.mem_cons] at ha hb
    rcases ha with rfl | ha <;> rcases hb with rfl | hb
    · rfl
    · exact absurd hba.symm (hc b hb)
    · exact absurd hba (hc a ha)
    · exact ih ht a ha b hb hba

theorem list_foldl_eq_self {α β : Type} (f : α → β → α) (s : α) (l : List β)
    (h : ∀ x ∈ l, f s x = s) : List.foldl f s l = s := by
  induction l with
  | nil => rfl
  | cons a t ih =>
    rw [List.foldl_cons, h a (by simp)]
    exact ih (fun x hx => h x (by simp [hx]))

theorem updateRun_upToDate (up : String → String → Option String) (now : String) :
    ∀ (l : List ManagedInstruction) (t : HubState),
      l.Pairwise (fun a b => a.filename ≠ b.filename) →
      (∀ e ∈ t.manifest, e.filename ∉ l.map (fun i => i.filename) → upToDate up t.disk e) →
      (∀ i ∈ l, ∀ e ∈ t.manifest, e.filename = i.filename → e = i) →
      ∀ e ∈ (List.foldl (updateStep up now) t l).manifest,
        upToDate up (List.foldl (updateStep up now) t l).disk e := by
  intro l
  induction l with
  | nil =>
    intro t _ h2 _ e he
    simp only [List.foldl_nil] at he ⊢
    exact h2 e he (by simp)
  | cons i l' ih =>
    intro t hpw h2 h3 e he
    rw [List.pairwise_cons] at hpw
    obtain ⟨hi, hpw'⟩ := hpw
    rw [List.foldl_cons] at he ⊢
    rcases updateStep_cases up now t i with ⟨hstep, hupd⟩ | ⟨c, hc, hstep⟩
    · rw [hstep] at he ⊢
      refine ih t hpw' ?_ ?_ e he
      · intro e2 he2 hnot
        by_cases hfe : e2.filename = i.filename
        · have he2i : e2 = i := h3 i (by simp) e2 he2 hfe
          subst he2i
          exact hupd
        · have hnotall : e2.filename ∉ List.map (fun j => j.filename) (i :: l') := by
            simp only [List.map_cons, List.mem_cons]
            push_neg
            exact ⟨hfe, by simpa using hnot⟩
          exact h2 e2 he2 (by simpa using hnotall)
      · intro i2 hi2 e2 he2 hfe
        exact h3 i2 (by simp [hi2]) e2 he2 hfe
    · rw [hstep] at he ⊢
      refine ih _ hpw' ?_ ?_ e he
      · intro e2 he2 hnot
        simp only [addManagedInstruction, removeManagedInstruction, List.mem_append,
          List.mem_filter, List.mem_singleton] at he2
        rcases he2 with ⟨⟨he2m, hne⟩, _⟩ | rfl
        · have hne2 : e2.filename ≠ i.filename := by simpa [bne_iff_ne] using hne
          have hnotall : e2.filename ∉ List.map (fun j => j.filename) (i :: l') := by
            simp only [List.map_cons, List.mem_cons]
            push_neg
            exact ⟨hne2, by simpa using hnot⟩
          have hupd2 : upToDate up t.disk e2 := h2 e2 he2m (by simpa using hnotall)
          intro c2 h2c
          rw [diskLookup_write_other t.disk i.filename (ensureFrontMatter c) e2.filename hne2]
          exact hupd2 c2 h2c
        · intro c2 h2c
          have hcc : c2 = c := by
            rw [hc] at h2c
            injection h2c with hinj
            exact hinj.symm
          subst hcc
          show ensureFrontMatter c2 =
            (diskLookup (diskWrite t.disk i.filename (ensureFrontMatter c2)) i.filename).getD ""
          rw [diskLookup_write_self]
          rfl
      · intro i2 hi2 e2 he2 hfe
        simp only [addManagedInstruction, removeManagedInstruction, List.mem_append,
          List.mem_filter, List.mem_singleton] at he2
        rcases he2 with ⟨⟨he2m, _⟩, _⟩ | rfl
        · exact h3 i2 (by simp [hi2]) e2 he2m hfe
        · exact absurd hfe (by simpa using (hi i2 hi2))

/-- C4: update idempotence.  With the upstream content function unchanged,
a second run of the update flow changes nothing: every entry compares
byte-for-byte equal and is skipped, so manifest and disk are identical
after the second run, whatever timestamp the second run would have
used. -/
theorem interactiveUpdate_idempotent (up : String → String → Option String)
    (now1 now2 : String) (s : HubState) (h : distinctFilenames s.manifest) :
    interactiveUpdate up now2 (interactiveUpdate up now1 s) = interactiveUpdate up now1 s := by
  have hstable : ∀ e ∈ (interactiveUpdate up now1 s).manifest,
      upToDate up (interactiveUpdate up now1 s).disk e := by
    apply updateRun_upToDate up now1 s.manifest s h
    · intro e he hnot
      exact absurd (List.mem_map_of_mem (fun i => i.filename) he) hnot
    · intro i hi e he hfe
      exact pairwise_filename_unique s.manifest h i hi e he hfe
  show List.foldl (updateStep up now2) (interactiveUpdate up now1 s)
      (interactiveUpdate up now1 s).manifest = interactiveUpdate up now1 s
  apply list_foldl_eq_self
  intro x hx
  exact updateStep_of_upToDate up now2 _ x (hstable x hx)

/-- Witness for C4: a tracked state with two entries, one of them stale on
disk and one whose source path has disappeared upstream. -/
theorem interactiveUpdate_idempotent_witness :
    interactiveUpdate
      (fun r p => if r = "o/r" ∧ p = "a.md" then some "A" else none) "t2"
      (interactiveUpdate
        (fun r p => if r = "o/r" ∧ p = "a.md" then some "A" else none) "t1"
        ⟨[("a.instructions.md", "old")],
         [⟨"a.instructions.md", "o/r", "a.md", "t0"⟩,
          ⟨"b.instructions.md", "o/r", "gone.md", "t0"⟩]⟩) =
    interactiveUpdate
      (fun r p => if r = "o/r" ∧ p = "a.md" then some "A" else none) "t1"
      ⟨[("a.instructions.md", "old")],
       [⟨"a.instructions.md", "o/r", "a.md", "t0"⟩,
        ⟨"b.instructions.md", "o/r", "gone.md", "t0"⟩]⟩ :=
  interactiveUpdate_idempotent
    (fun r p => if r = "o/r" ∧ p = "a.md" then some "A" else none) "t1" "t2"
    ⟨[("a.instructions.md", "old")],
     [⟨"a.instructions.md", "o/r", "a.md", "t0"⟩,
      ⟨"b.instructions.md", "o/r", "gone.md", "t0"⟩]⟩
    (by unfold distinctFilenames; decide)

/-! ## Claim C3 -/

theorem jsDrop1_slash_append (x : String) : jsDrop1 ("/" ++ x) = x := rfl

/-- C3: branch-segment invariance of the Locator.  For a shorthand
reference and the corresponding full URL with a tree-branch segment that
denote the same owner, repo and subpath, parseGitHubRepo yields the same
locator; the branch name is discarded.  The hypotheses pin down the
well-formed pair: the shorthand is trimmed and free of scheme separators
and tree segments, the URL parses to the github.com host with the expected
pathname, the tree segment occurs exactly where it was inserted, and
re-joining after dropping the branch segment restores the subpath (this
last equation holds whenever the branch name contains no slash). -/
theorem parseGitHubRepo_tree_segment_invariant
    (owner repo branch rest s1 mid s2 : String)
    (hs1 : s1 = owner ++ "/" ++ repo ++ (if rest = "" then "" else "/" ++ rest))
    (hmid : mid = owner ++ "/" ++ repo ++ "/tree/" ++ branch ++
      (if rest = "" then "" else "/" ++ rest))
    (hs2 : s2 = "https://github.com/" ++ mid)
    (htrim1 : jsTrim s1 = s1)
    (hnourl : jsIncludes s1 "://" = false)
    (hnotree : jsIncludes s1 "/tree/" = false)
    (htrim2 : jsTrim s2 = s2)
    (hurl : parseURL s2 = some ⟨"https:", "github.com", "/" ++ mid⟩)
    (hincl2 : jsIncludes s2 "://" = true)
    (hinctree : jsIncludes mid "/tree/" = true)
    (hsplit : jsSplit mid "/tree/" =
      [owner ++ "/" ++ repo, branch ++ (if rest = "" then "" else "/" ++ rest)])
    (hafter : jsJoin "/"
      ((jsSplit (branch ++ (if rest = "" then "" else "/" ++ rest)) "/").drop 1) = rest) :
    parseGitHubRepo s1 = parseGitHubRepo s2 := by
  have htc1 : treeClean s1 = s1 := by
    unfold treeClean
    rw [hnotree]
    simp
  have htc2 : treeClean mid = s1 := by
    unfold treeClean
    rw [if_pos hinctree, hsplit]
    simp only [List.getD_cons_succ, List.getD_cons_zero, List.headD_cons]
    rw [hafter]
    by_cases hrest : rest = ""
    · rw [if_neg (by simp [hrest])]
      rw [hs1]
      simp [hrest]
    · rw [if_pos hrest]
      rw [hs1, if_neg hrest]
      simp [String.append_assoc]
  unfold parseGitHubRepo
  rw [htrim1, htrim2]
  simp only []
  rw [hnourl, hincl2, hurl]
  simp only [Bool.false_eq_true, if_false, if_true]
  rw [htc1]
  show some (locFromClean s1 publicBase) =
    some (locFromClean (treeClean (jsDrop1 ("/" ++ mid)))
      (if ("github.com" : String) ≠ "github.com"
       then "https:" ++ "//" ++ "github.com" ++ "/api/v3" else publicBase))
  rw [jsDrop1_slash_append, htc2, if_neg (by simp)]

/-- Witness for C3 at a shorthand and its tree-branch URL form. -/
theorem parseGitHubRepo_tree_segment_invariant_witness :
    parseGitHubRepo "octo/docsrepo/docs/sub" =
      parseGitHubRepo "https://github.com/octo/docsrepo/tree/main/docs/sub" :=
  parseGitHubRepo_tree_segment_invariant "octo" "docsrepo" "main" "docs/sub"
    "octo/docsrepo/docs/sub" "octo/docsrepo/tree/main/docs/sub"
    "https://github.com/octo/docsrepo/tree/main/docs/sub"
    (by decide) (by decide) (by decide) (by decide) (by decide) (by decide)
    (by decide) (by decide) (by decide) (by decide) (by decide) (by decide)
